import Mathlib

/-!
Verification of the SPSC ring-buffer queue from `src/c++/queue.hpp`
(ANDRVV/SPSCQueue), as a shallow embedding in Lean 4.

The queue state consists of the element storage (`std::vector<T> items`),
the producer and consumer cursors (`std::atomic<size_t>` each, masked into
`[0, capacity)` by every update), and the two thread-private cached
snapshots of the peer's cursor (`push_cursor_cache`, `pop_cursor_cache`).
`size_t` values are modelled as `Nat`; the one place where `size_t`
arithmetic can wrap (the subtraction in `size()`) is modelled with an
explicit `% 2^64`.

Operations are modelled under the single-producer/single-consumer
discipline as a sequential interleaving: each call runs to completion
before the next begins.  A blocking call (`push` on a full queue, `pop` on
an empty queue) spins forever in that quiescent model, which we render as
`none`; the cache refresh inside the spin loop reads the live value of the
peer cursor, so a single refresh decides the loop.
-/

/-- The queue state: `items` is the backing `std::vector<T>`, the four
counters are `producer.cursor`, `consumer.cursor`, `push_cursor_cache.cursor`
and `pop_cursor_cache.cursor` from the C++ class (all `size_t`, all starting
at 0). -/
structure SPSCQueue (T : Type) where
  items : List T
  producer : Nat
  consumer : Nat
  pushCursorCache : Nat
  popCursorCache : Nat
  deriving Repr, DecidableEq

namespace SPSCQueue

variable {T : Type} [Inhabited T]

/-- `items.size()`: the capacity of the ring. -/
def cap (q : SPSCQueue T) : Nat := q.items.length

/-- `nextIndex(i) = (i + 1) & (items.size() - 1)`. -/
def nextIndex (q : SPSCQueue T) (i : Nat) : Nat :=
  (i + 1) &&& (q.items.length - 1)

/-- The constructor body `SPSCQueue(size_t slots_) : items(slots_)`:
all cursors and caches are zero-initialized and the vector holds `slots_`
value-initialized elements. -/
def mkQueue (T : Type) [Inhabited T] (slots : Nat) : SPSCQueue T :=
  { items := List.replicate slots default
    producer := 0
    consumer := 0
    pushCursorCache := 0
    popCursorCache := 0 }

/-- The constructor including its `assert((slots_ & (slots_ - 1)) == 0)`:
`none` models the fatal assertion failure, `some` a constructed queue. -/
def construct (T : Type) [Inhabited T] (slots : Nat) : Option (SPSCQueue T) :=
  if slots &&& (slots - 1) = 0 then some (mkQueue T slots) else none

/-- `tryPush`: load the producer cursor, compute `next`; if `next` hits the
cached consumer snapshot, refresh the snapshot from the consumer cursor and
fail if it still hits; otherwise store the value at `producer` and publish
`next`. -/
def tryPush (q : SPSCQueue T) (value : T) : Bool × SPSCQueue T :=
  let index := q.producer
  let next := q.nextIndex index
  if next = q.pushCursorCache then
    -- push_cursor_cache.cursor = consumer.cursor.load(acquire)
    let fresh := q.consumer
    if next = fresh then
      (false, { q with pushCursorCache := fresh })
    else
      (true, { q with items := q.items.set index value
                      producer := next
                      pushCursorCache := fresh })
  else
    (true, { q with items := q.items.set index value, producer := next })

/-- Blocking `push` in the sequential model: the spin loop refreshes the
cached consumer snapshot from the live consumer cursor, so it exits after
at most one refresh or spins forever (`none`) if the ring is full. -/
def push (q : SPSCQueue T) (value : T) : Option (SPSCQueue T) :=
  let index := q.producer
  let next := q.nextIndex index
  if next = q.pushCursorCache then
    let fresh := q.consumer
    if next = fresh then
      none
    else
      some { q with items := q.items.set index value
                    producer := next
                    pushCursorCache := fresh }
  else
    some { q with items := q.items.set index value, producer := next }

/-- `tryPop(T& out)`: load the consumer cursor; if it hits the cached
producer snapshot, refresh the snapshot and fail if it still hits;
otherwise copy `items[index]` into `out` and publish `nextIndex(index)`.
The returned triple is (result, out after the call, queue after the call). -/
def tryPop (q : SPSCQueue T) (out : T) : Bool × T × SPSCQueue T :=
  let index := q.consumer
  if index = q.popCursorCache then
    -- pop_cursor_cache.cursor = producer.cursor.load(acquire)
    let fresh := q.producer
    if index = fresh then
      (false, out, { q with popCursorCache := fresh })
    else
      (true, q.items.getD index default,
        { q with consumer := q.nextIndex index, popCursorCache := fresh })
  else
    (true, q.items.getD index default,
      { q with consumer := q.nextIndex index })

/-- Blocking `pop` in the sequential model: `none` when the queue is empty
(the spin loop would run forever), otherwise the popped value and the new
state.  The value is copied out of `items[index]` before the consumer
cursor is advanced. -/
def pop (q : SPSCQueue T) : Option (T × SPSCQueue T) :=
  let index := q.consumer
  if index = q.popCursorCache then
    let fresh := q.producer
    if index = fresh then
      none
    else
      some (q.items.getD index default,
        { q with consumer := q.nextIndex index, popCursorCache := fresh })
  else
    some (q.items.getD index default,
      { q with consumer := q.nextIndex index })

/-- `size()`: `(write_index - read_index) & (items.size() - 1)` where the
subtraction is `size_t` arithmetic, i.e. wraps modulo `2^64`. -/
def size (q : SPSCQueue T) : Nat :=
  ((q.producer + 2 ^ 64 - q.consumer) % 2 ^ 64) &&& (q.items.length - 1)

/-- `isEmpty()`: producer cursor equals consumer cursor. -/
def isEmpty (q : SPSCQueue T) : Bool :=
  q.producer == q.consumer

end SPSCQueue

/-- The cache-line size used by the header's fallback (`CACHE_LINE 64`). -/
def CACHE_LINE : Nat := 64

/-- `recommendedSlots<T>()` computes `4096 * CACHE_LINE / sizeof(T)`;
modelled as a function of `sizeof(T)`. -/
def recommendedSlots (sizeofT : Nat) : Nat :=
  (4096 * CACHE_LINE) / sizeofT

/-- The assertion inside `recommendedSlots`:
`assert((slots & (slots - 1)) == 0 && slots >= 2)`. -/
def recommendedSlotsAssert (sizeofT : Nat) : Bool :=
  let slots := recommendedSlots sizeofT
  (slots &&& (slots - 1) == 0) && decide (2 ≤ slots)

/-! ### Modular-arithmetic helpers for masked cursors -/

lemma mod_small_cases (n x : Nat) (h : x < 2 * n) :
    x % n = if x < n then x else x - n := by
  split
  · exact Nat.mod_eq_of_lt (by assumption)
  · rw [Nat.mod_eq_sub_mod (by omega), Nat.mod_eq_of_lt (by omega)]

lemma next_mod (n p : Nat) (hp : p < n) :
    (p + 1) % n = if p + 1 = n then 0 else p + 1 := by
  rw [mod_small_cases n (p + 1) (by omega)]
  split_ifs <;> omega

/-- The number of occupied slots read off a pair of masked cursors:
`(p - c) mod n` computed without underflow. -/
def occOf (n p c : Nat) : Nat := (p + n - c) % n

lemma occOf_lt (n p c : Nat) (hn : 0 < n) : occOf n p c < n :=
  Nat.mod_lt _ hn

lemma occOf_eq (n p c : Nat) (hp : p < n) (hc : c < n) :
    occOf n p c = if c ≤ p then p - c else p + n - c := by
  unfold occOf
  rw [mod_small_cases n (p + n - c) (by omega)]
  split_ifs <;> omega

lemma occOf_eq_zero_iff (n p c : Nat) (hp : p < n) (hc : c < n) :
    occOf n p c = 0 ↔ p = c := by
  rw [occOf_eq n p c hp hc]
  split_ifs <;> omega

lemma occOf_eq_pred_iff (n p k : Nat) (hp : p < n) (hk : k < n) :
    occOf n p k = n - 1 ↔ k = (p + 1) % n := by
  rw [occOf_eq n p k hp hk, next_mod n p hp]
  split_ifs <;> omega

lemma occOf_add_one_left (n p c : Nat) (hp : p < n) (hc : c < n)
    (h : occOf n p c < n - 1) :
    occOf n ((p + 1) % n) c = occOf n p c + 1 := by
  rw [next_mod n p hp]
  by_cases h1 : p + 1 = n
  · rw [if_pos h1, occOf_eq n 0 c (by omega) hc, occOf_eq n p c hp hc]
    rw [occOf_eq n p c hp hc] at h
    split_ifs at h ⊢ <;> omega
  · rw [if_neg h1, occOf_eq n (p + 1) c (by omega) hc, occOf_eq n p c hp hc]
    rw [occOf_eq n p c hp hc] at h
    split_ifs at h ⊢ <;> omega

lemma occOf_add_one_right (n x c : Nat) (hx : x < n) (hc : c < n)
    (h : 1 ≤ occOf n x c) :
    occOf n x ((c + 1) % n) = occOf n x c - 1 := by
  rw [next_mod n c hc]
  by_cases h1 : c + 1 = n
  · rw [if_pos h1, occOf_eq n x 0 hx (by omega), occOf_eq n x c hx hc]
    rw [occOf_eq n x c hx hc] at h
    split_ifs at h ⊢ <;> omega
  · rw [if_neg h1, occOf_eq n x (c + 1) hx (by omega), occOf_eq n x c hx hc]
    rw [occOf_eq n x c hx hc] at h
    split_ifs at h ⊢ <;> omega

lemma consumer_add_occOf (n p c : Nat) (hp : p < n) (hc : c < n) :
    (c + occOf n p c) % n = p := by
  rw [occOf_eq n p c hp hc]
  split_ifs with h
  · rw [show c + (p - c) = p from by omega, Nat.mod_eq_of_lt hp]
  · rw [show c + (p + n - c) = p + n from by omega, Nat.add_mod_right,
      Nat.mod_eq_of_lt hp]

lemma index_ne_producer (n p c i : Nat) (hp : p < n) (hc : c < n)
    (hi : i < occOf n p c) : (c + i) % n ≠ p := by
  intro heq
  rw [occOf_eq n p c hp hc] at hi
  rw [mod_small_cases n (c + i) (by split_ifs at hi <;> omega)] at heq
  split_ifs at hi heq <;> omega

/-! ### List helpers -/

lemma getD_set_self {α : Type} (l : List α) (i : Nat) (a d : α)
    (h : i < l.length) : (l.set i a).getD i d = a := by
  simp [List.getD_eq_getElem?_getD, List.getElem?_set_self h]

lemma getD_set_ne {α : Type} (l : List α) (i j : Nat) (a d : α)
    (h : i ≠ j) : (l.set i a).getD j d = l.getD j d := by
  simp [List.getD_eq_getElem?_getD, List.getElem?_set_ne h]

/-! ### The reachable-state invariant and the abstraction function -/

namespace SPSCQueue

variable {T : Type} [Inhabited T]

/-- The invariant maintained by every reachable state of a queue built with
a power-of-two capacity `≥ 2` (a `size_t`-indexed vector forces the
exponent below 64): the cursors and both cached snapshots are masked into
`[0, capacity)`, the occupancy seen by the producer through its cached
consumer snapshot is an over-approximation of the true occupancy, and the
occupancy seen by the consumer through its cached producer snapshot is an
under-approximation. -/
structure Inv (q : SPSCQueue T) : Prop where
  hcap : ∃ j, 1 ≤ j ∧ j ≤ 63 ∧ q.cap = 2 ^ j
  hp : q.producer < q.cap
  hc : q.consumer < q.cap
  hk : q.pushCursorCache < q.cap
  hm : q.popCursorCache < q.cap
  hkle : occOf q.cap q.producer q.consumer ≤ occOf q.cap q.producer q.pushCursorCache
  hmle : occOf q.cap q.popCursorCache q.consumer ≤ occOf q.cap q.producer q.consumer

/-- The abstract FIFO content of the queue: the occupied slots read from
the consumer cursor up to (excluding) the producer cursor. -/
def contents (q : SPSCQueue T) : List T :=
  (List.range (occOf q.cap q.producer q.consumer)).map
    (fun i => q.items.getD ((q.consumer + i) % q.cap) default)

lemma cap_mkQueue (s : Nat) : (mkQueue T s).cap = s := by
  simp [mkQueue, cap]

lemma inv_mkQueue (j : Nat) (h1 : 1 ≤ j) (h2 : j ≤ 63) :
    (mkQueue T (2 ^ j)).Inv := by
  have hpos : 0 < 2 ^ j := Nat.pos_pow_of_pos j (by omega)
  refine ⟨⟨j, h1, h2, cap_mkQueue _⟩, ?_, ?_, ?_, ?_, ?_, ?_⟩ <;>
    simp [mkQueue, cap, occOf, Nat.mod_self, hpos]

lemma contents_mkQueue (s : Nat) :
    (mkQueue T s).contents = [] := by
  simp [contents, mkQueue, cap, occOf, Nat.mod_self]

lemma two_le_of_inv {q : SPSCQueue T} (h : q.Inv) : 2 ≤ q.cap := by
  obtain ⟨j, hj1, _, hc⟩ := h.hcap
  calc 2 = 2 ^ 1 := rfl
  _ ≤ 2 ^ j := Nat.pow_le_pow_right (by omega) hj1
  _ = q.cap := hc.symm

lemma nextIndex_eq (q : SPSCQueue T) (j : Nat) (hcap : q.cap = 2 ^ j)
    (i : Nat) : q.nextIndex i = (i + 1) % q.cap := by
  show (i + 1) &&& (q.cap - 1) = (i + 1) % q.cap
  rw [hcap, Nat.and_pow_two_sub_one_eq_mod]

lemma set_pushCursorCache_self (q : SPSCQueue T) (x : Nat)
    (h : q.pushCursorCache = x) : { q with pushCursorCache := x } = q := by
  cases q
  cases h
  rfl

lemma set_popCursorCache_self (q : SPSCQueue T) (x : Nat)
    (h : q.popCursorCache = x) : { q with popCursorCache := x } = q := by
  cases q
  cases h
  rfl

/-- Appending at the producer cursor appends to the abstract content. -/
lemma contents_after_push (q q' : SPSCQueue T) (v : T)
    (hit : q'.items = q.items.set q.producer v)
    (hpr : q'.producer = (q.producer + 1) % q.cap)
    (hco : q'.consumer = q.consumer)
    (hp : q.producer < q.cap) (hc : q.consumer < q.cap)
    (hnf : occOf q.cap q.producer q.consumer < q.cap - 1) :
    q'.contents = q.contents ++ [v] := by
  have hcap' : q'.cap = q.cap := by
    show q'.items.length = q.cap
    rw [hit, List.length_set]
    rfl
  unfold contents
  rw [hcap', hpr, hco, hit,
    occOf_add_one_left q.cap q.producer q.consumer hp hc hnf,
    List.range_succ, List.map_append]
  congr 1
  · apply List.map_congr_left
    intro i hi
    rw [List.mem_range] at hi
    exact getD_set_ne _ _ _ _ _
      (fun he => index_ne_producer q.cap q.producer q.consumer i hp hc hi he.symm)
  · simp only [List.map_cons, List.map_nil]
    rw [consumer_add_occOf q.cap q.producer q.consumer hp hc,
      getD_set_self _ _ _ _ hp]

/-- Advancing the consumer cursor removes the head of the abstract content. -/
lemma contents_after_pop (q q' : SPSCQueue T)
    (hit : q'.items = q.items)
    (hpr : q'.producer = q.producer)
    (hco : q'.consumer = (q.consumer + 1) % q.cap)
    (hp : q.producer < q.cap) (hc : q.consumer < q.cap)
    (hne : 1 ≤ occOf q.cap q.producer q.consumer) :
    q.contents = q.items.getD q.consumer default :: q'.contents := by
  have hcap' : q'.cap = q.cap := by
    show q'.items.length = q.cap
    rw [hit]
    rfl
  unfold contents
  rw [hcap', hpr, hco, hit,
    occOf_add_one_right q.cap q.producer q.consumer hp hc hne]
  obtain ⟨o, ho⟩ : ∃ o, occOf q.cap q.producer q.consumer = o + 1 :=
    ⟨occOf q.cap q.producer q.consumer - 1, by omega⟩
  rw [ho]
  simp only [Nat.add_sub_cancel]
  rw [List.range_succ_eq_map]
  simp only [List.map_cons, List.map_map]
  congr 1
  · rw [Nat.add_zero, Nat.mod_eq_of_lt hc]
  · apply List.map_congr_left
    intro i hi
    simp only [Function.comp_apply]
    rw [Nat.mod_add_mod]
    congr 2
    omega

/-- `tryPush` on a state satisfying the invariant: a failed call leaves
the state unchanged; a successful call preserves the invariant and appends
the value to the abstract content. -/
lemma tryPush_sound (q : SPSCQueue T) (v : T) (hInv : q.Inv) :
    ((q.tryPush v).1 = false → (q.tryPush v).2 = q)
    ∧ ((q.tryPush v).1 = true →
        (q.tryPush v).2.Inv ∧ (q.tryPush v).2.contents = q.contents ++ [v]) := by
  obtain ⟨j, hj1, hj63, hcapj⟩ := hInv.hcap
  have hn2 : 2 ≤ q.cap := two_le_of_inv hInv
  have hp := hInv.hp
  have hc := hInv.hc
  have hk := hInv.hk
  have hm := hInv.hm
  have hkle := hInv.hkle
  have hmle := hInv.hmle
  have hnext : q.nextIndex q.producer = (q.producer + 1) % q.cap :=
    nextIndex_eq q j hcapj _
  simp only [tryPush, hnext]
  split_ifs with h1 h2
  · -- full: next hits the refreshed consumer cursor
    refine ⟨fun _ => set_pushCursorCache_self q _ (h1.symm.trans h2),
      fun hab => absurd hab (by simp)⟩
  · -- refresh-then-succeed: cache updated to the live consumer cursor
    refine ⟨fun hab => absurd hab (by simp), fun _ => ?_⟩
    have hnf : occOf q.cap q.producer q.consumer < q.cap - 1 := by
      have hlt := occOf_lt q.cap q.producer q.consumer (by omega)
      rcases Nat.lt_or_ge (occOf q.cap q.producer q.consumer) (q.cap - 1) with h | h
      · exact h
      · exact absurd ((occOf_eq_pred_iff q.cap q.producer q.consumer hp hc).1
          (by omega)).symm h2
    have hcap' : ∀ w : T,
        ({ q with items := q.items.set q.producer w,
                  producer := (q.producer + 1) % q.cap,
                  pushCursorCache := q.consumer } : SPSCQueue T).cap = q.cap := by
      intro w
      show (q.items.set q.producer w).length = q.cap
      rw [List.length_set]
      rfl
    refine ⟨⟨⟨j, hj1, hj63, by rw [hcap' v]; exact hcapj⟩, ?_, ?_, ?_, ?_, ?_, ?_⟩, ?_⟩
    · show (q.producer + 1) % q.cap < _
      rw [hcap' v]
      exact Nat.mod_lt _ (by omega)
    · show q.consumer < _
      rw [hcap' v]
      exact hc
    · show q.consumer < _
      rw [hcap' v]
      exact hc
    · show q.popCursorCache < _
      rw [hcap' v]
      exact hm
    · show occOf _ ((q.producer + 1) % q.cap) q.consumer ≤
        occOf _ ((q.producer + 1) % q.cap) q.consumer
      exact Nat.le_refl _
    · show occOf _ q.popCursorCache q.consumer ≤
        occOf _ ((q.producer + 1) % q.cap) q.consumer
      rw [hcap' v, occOf_add_one_left q.cap q.producer q.consumer hp hc hnf]
      omega
    · exact contents_after_push q _ v rfl rfl rfl hp hc hnf
  · -- fast-path success: the cached consumer snapshot is not refreshed
    refine ⟨fun hab => absurd hab (by simp), fun _ => ?_⟩
    have hknf : occOf q.cap q.producer q.pushCursorCache < q.cap - 1 := by
      have hlt := occOf_lt q.cap q.producer q.pushCursorCache (by omega)
      rcases Nat.lt_or_ge (occOf q.cap q.producer q.pushCursorCache) (q.cap - 1)
        with h | h
      · exact h
      · exact absurd ((occOf_eq_pred_iff q.cap q.producer q.pushCursorCache hp hk).1
          (by omega)).symm h1
    have hnf : occOf q.cap q.producer q.consumer < q.cap - 1 := by omega
    have hcap' : ∀ w : T,
        ({ q with items := q.items.set q.producer w,
                  producer := (q.producer + 1) % q.cap } : SPSCQueue T).cap = q.cap := by
      intro w
      show (q.items.set q.producer w).length = q.cap
      rw [List.length_set]
      rfl
    refine ⟨⟨⟨j, hj1, hj63, by rw [hcap' v]; exact hcapj⟩, ?_, ?_, ?_, ?_, ?_, ?_⟩, ?_⟩
    · show (q.producer + 1) % q.cap < _
      rw [hcap' v]
      exact Nat.mod_lt _ (by omega)
    · show q.consumer < _
      rw [hcap' v]
      exact hc
    · show q.pushCursorCache < _
      rw [hcap' v]
      exact hk
    · show q.popCursorCache < _
      rw [hcap' v]
      exact hm
    · show occOf _ ((q.producer + 1) % q.cap) q.consumer ≤
        occOf _ ((q.producer + 1) % q.cap) q.pushCursorCache
      rw [hcap' v, occOf_add_one_left q.cap q.producer q.consumer hp hc hnf,
        occOf_add_one_left q.cap q.producer q.pushCursorCache hp hk hknf]
      omega
    · show occOf _ q.popCursorCache q.consumer ≤
        occOf _ ((q.producer + 1) % q.cap) q.consumer
      rw [hcap' v, occOf_add_one_left q.cap q.producer q.consumer hp hc hnf]
      omega
    · exact contents_after_push q _ v rfl rfl rfl hp hc hnf

/-- `tryPop` on a state satisfying the invariant: a failed call happens
only on an empty queue and changes nothing (neither the state nor the
caller's `out` variable); a successful call preserves the invariant and
removes the head of the abstract content. -/
lemma tryPop_sound (q : SPSCQueue T) (out : T) (hInv : q.Inv) :
    ((q.tryPop out).1 = false →
        (q.tryPop out).2.2 = q ∧ (q.tryPop out).2.1 = out ∧
        q.producer = q.consumer)
    ∧ ((q.tryPop out).1 = true →
        (q.tryPop out).2.2.Inv ∧
        q.contents = (q.tryPop out).2.1 :: (q.tryPop out).2.2.contents) := by
  obtain ⟨j, hj1, hj63, hcapj⟩ := hInv.hcap
  have hn2 : 2 ≤ q.cap := two_le_of_inv hInv
  have hp := hInv.hp
  have hc := hInv.hc
  have hk := hInv.hk
  have hm := hInv.hm
  have hkle := hInv.hkle
  have hmle := hInv.hmle
  have hnext : q.nextIndex q.consumer = (q.consumer + 1) % q.cap :=
    nextIndex_eq q j hcapj _
  simp only [tryPop, hnext]
  split_ifs with h1 h2
  · -- empty: consumer hits the refreshed producer cursor
    refine ⟨fun _ => ⟨set_popCursorCache_self q _ (h1.symm.trans h2), rfl, h2.symm⟩,
      fun hab => absurd hab (by simp)⟩
  · -- refresh-then-succeed: cache updated to the live producer cursor
    refine ⟨fun hab => absurd hab (by simp), fun _ => ?_⟩
    have hne : 1 ≤ occOf q.cap q.producer q.consumer := by
      rcases Nat.eq_zero_or_pos (occOf q.cap q.producer q.consumer) with h | h
      · exact absurd ((occOf_eq_zero_iff q.cap q.producer q.consumer hp hc).1 h).symm h2
      · exact h
    refine ⟨⟨⟨j, hj1, hj63, hcapj⟩, hp, ?_, hk, hp, ?_, ?_⟩, ?_⟩
    · show (q.consumer + 1) % q.cap < q.cap
      exact Nat.mod_lt _ (by omega)
    · show occOf q.cap q.producer ((q.consumer + 1) % q.cap) ≤
        occOf q.cap q.producer q.pushCursorCache
      rw [occOf_add_one_right q.cap q.producer q.consumer hp hc hne]
      omega
    · show occOf q.cap q.producer ((q.consumer + 1) % q.cap) ≤
        occOf q.cap q.producer ((q.consumer + 1) % q.cap)
      exact Nat.le_refl _
    · exact contents_after_pop q _ rfl rfl rfl hp hc hne
  · -- fast-path success: the cached producer snapshot is not refreshed
    refine ⟨fun hab => absurd hab (by simp), fun _ => ?_⟩
    have hmne : 1 ≤ occOf q.cap q.popCursorCache q.consumer := by
      rcases Nat.eq_zero_or_pos (occOf q.cap q.popCursorCache q.consumer) with h | h
      · exact absurd ((occOf_eq_zero_iff q.cap q.popCursorCache q.consumer hm hc).1 h)
          (fun he => h1 he.symm)
      · exact h
    have hne : 1 ≤ occOf q.cap q.producer q.consumer := le_trans hmne hmle
    refine ⟨⟨⟨j, hj1, hj63, hcapj⟩, hp, ?_, hk, hm, ?_, ?_⟩, ?_⟩
    · show (q.consumer + 1) % q.cap < q.cap
      exact Nat.mod_lt _ (by omega)
    · show occOf q.cap q.producer ((q.consumer + 1) % q.cap) ≤
        occOf q.cap q.producer q.pushCursorCache
      rw [occOf_add_one_right q.cap q.producer q.consumer hp hc hne]
      omega
    · show occOf q.cap q.popCursorCache ((q.consumer + 1) % q.cap) ≤
        occOf q.cap q.producer ((q.consumer + 1) % q.cap)
      rw [occOf_add_one_right q.cap q.producer q.consumer hp hc hne,
        occOf_add_one_right q.cap q.popCursorCache q.consumer hm hc hmne]
      omega
    · exact contents_after_pop q _ rfl rfl rfl hp hc hne

/-- The blocking `push` terminates exactly when `tryPush` succeeds, with
the same resulting state. -/
lemma push_eq_tryPush (q : SPSCQueue T) (v : T) (q' : SPSCQueue T) :
    q.push v = some q' ↔ q.tryPush v = (true, q') := by
  simp only [push, tryPush]
  split_ifs <;> simp [Prod.ext_iff, eq_comm]

/-- The blocking `pop` terminates exactly when `tryPop` succeeds, with the
same value and resulting state. -/
lemma pop_eq_tryPop (q : SPSCQueue T) (v : T) (q' : SPSCQueue T) :
    q.pop = some (v, q') ↔ q.tryPop default = (true, v, q') := by
  simp only [pop, tryPop]
  split_ifs <;> simp [Prod.ext_iff, eq_comm]

end SPSCQueue

/-- A producer/consumer operation on the queue. -/
inductive Op (T : Type) where
  | push (v : T)
  | tryPush (v : T)
  | pop
  | tryPop
  deriving Repr, DecidableEq

/-- Run a sequence of operations under the SPSC discipline (sequential
interleaving).  Returns `none` when a blocking operation would spin
forever; otherwise returns the list of successfully pushed values, the
list of popped values (each in call order), and the final state. -/
def runOps {T : Type} [Inhabited T] :
    List (Op T) → SPSCQueue T → Option (List T × List T × SPSCQueue T)
  | [], q => some ([], [], q)
  | Op.push v :: ops, q =>
    match q.push v with
    | none => none
    | some q' =>
      match runOps ops q' with
      | none => none
      | some (ps, os, qf) => some (v :: ps, os, qf)
  | Op.tryPush v :: ops, q =>
    match runOps ops (q.tryPush v).2 with
    | none => none
    | some (ps, os, qf) =>
      some (if (q.tryPush v).1 then v :: ps else ps, os, qf)
  | Op.pop :: ops, q =>
    match q.pop with
    | none => none
    | some r =>
      match runOps ops r.2 with
      | none => none
      | some (ps, os, qf) => some (ps, r.1 :: os, qf)
  | Op.tryPop :: ops, q =>
    match runOps ops (q.tryPop default).2.2 with
    | none => none
    | some (ps, os, qf) =>
      some (ps, if (q.tryPop default).1 then (q.tryPop default).2.1 :: os else os, qf)

/-- Running any terminating operation sequence from an invariant state
preserves the invariant, and the popped values followed by the remaining
abstract content are exactly the initial content followed by the
successfully pushed values — the FIFO property. -/
lemma runOps_sound {T : Type} [Inhabited T] (ops : List (Op T))
    (q : SPSCQueue T) (hInv : q.Inv) (ps os : List T) (qf : SPSCQueue T)
    (h : runOps ops q = some (ps, os, qf)) :
    qf.Inv ∧ os ++ qf.contents = q.contents ++ ps := by
  induction ops generalizing q ps os with
  | nil =>
    simp only [runOps, Option.some.injEq, Prod.mk.injEq] at h
    obtain ⟨h1, h2, h3⟩ := h
    subst h1
    subst h2
    subst h3
    exact ⟨hInv, by simp⟩
  | cons op ops ih =>
    cases op with
    | push v =>
      simp only [runOps] at h
      cases hpv : q.push v with
      | none => rw [hpv] at h; exact absurd h (by simp)
      | some q' =>
        rw [hpv] at h
        simp only [] at h
        cases hrun : runOps ops q' with
        | none => rw [hrun] at h; exact absurd h (by simp)
        | some r =>
          obtain ⟨ps', os', qf'⟩ := r
          rw [hrun] at h
          simp only [Option.some.injEq, Prod.mk.injEq] at h
          obtain ⟨h1, h2, h3⟩ := h
          subst h1
          subst h2
          subst h3
          have htp : q.tryPush v = (true, q') := (SPSCQueue.push_eq_tryPush q v q').1 hpv
          have hs := (SPSCQueue.tryPush_sound q v hInv).2
          rw [htp] at hs
          obtain ⟨hInv', hcont'⟩ := hs rfl
          obtain ⟨hInvf, hof⟩ := ih q' hInv' ps' os' hrun
          refine ⟨hInvf, ?_⟩
          rw [hof, hcont']
          simp
    | tryPush v =>
      simp only [runOps] at h
      cases hrun : runOps ops (q.tryPush v).2 with
      | none => rw [hrun] at h; exact absurd h (by simp)
      | some r =>
        obtain ⟨ps', os', qf'⟩ := r
        rw [hrun] at h
        simp only [Option.some.injEq, Prod.mk.injEq] at h
        obtain ⟨h1, h2, h3⟩ := h
        subst h2
        subst h3
        cases hb : (q.tryPush v).1 with
        | false =>
          rw [hb] at h1
          simp at h1
          subst h1
          have hq' : (q.tryPush v).2 = q := (SPSCQueue.tryPush_sound q v hInv).1 hb
          rw [hq'] at hrun
          exact ih q hInv ps' os' hrun
        | true =>
          rw [hb] at h1
          simp at h1
          subst h1
          obtain ⟨hInv', hcont'⟩ := (SPSCQueue.tryPush_sound q v hInv).2 hb
          obtain ⟨hInvf, hof⟩ := ih (q.tryPush v).2 hInv' ps' os' hrun
          refine ⟨hInvf, ?_⟩
          rw [hof, hcont']
          simp
    | pop =>
      simp only [runOps] at h
      cases hpv : q.pop with
      | none => rw [hpv] at h; exact absurd h (by simp)
      | some r0 =>
        obtain ⟨v, q'⟩ := r0
        rw [hpv] at h
        simp only [] at h
        cases hrun : runOps ops q' with
        | none => rw [hrun] at h; exact absurd h (by simp)
        | some r =>
          obtain ⟨ps', os', qf'⟩ := r
          rw [hrun] at h
          simp only [Option.some.injEq, Prod.mk.injEq] at h
          obtain ⟨h1, h2, h3⟩ := h
          subst h1
          subst h2
          subst h3
          have htp : q.tryPop default = (true, v, q') :=
            (SPSCQueue.pop_eq_tryPop q v q').1 hpv
          have hs := (SPSCQueue.tryPop_sound q default hInv).2
          rw [htp] at hs
          obtain ⟨hInv', hcont'⟩ := hs rfl
          obtain ⟨hInvf, hof⟩ := ih q' hInv' ps' os' hrun
          refine ⟨hInvf, ?_⟩
          rw [List.cons_append, hof, hcont']
          simp
    | tryPop =>
      simp only [runOps] at h
      cases hrun : runOps ops (q.tryPop default).2.2 with
      | none => rw [hrun] at h; exact absurd h (by simp)
      | some r =>
        obtain ⟨ps', os', qf'⟩ := r
        rw [hrun] at h
        simp only [Option.some.injEq, Prod.mk.injEq] at h
        obtain ⟨h1, h2, h3⟩ := h
        subst h1
        subst h3
        cases hb : (q.tryPop default).1 with
        | false =>
          rw [hb] at h2
          simp at h2
          subst h2
          have hq' : (q.tryPop default).2.2 = q :=
            ((SPSCQueue.tryPop_sound q default hInv).1 hb).1
          rw [hq'] at hrun
          exact ih q hInv ps' os' hrun
        | true =>
          rw [hb] at h2
          simp at h2
          subst h2
          obtain ⟨hInv', hcont'⟩ := (SPSCQueue.tryPop_sound q default hInv).2 hb
          obtain ⟨hInvf, hof⟩ := ih (q.tryPop default).2.2 hInv' ps' os' hrun
          refine ⟨hInvf, ?_⟩
          rw [List.cons_append, hof, hcont']
          simp

/-- Fold `tryPush` over a list of values, failing if any push reports a
full ring. -/
def tryPushAll {T : Type} [Inhabited T] :
    SPSCQueue T → List T → Option (SPSCQueue T)
  | q, [] => some q
  | q, v :: vs =>
    if (q.tryPush v).1 then tryPushAll (q.tryPush v).2 vs else none

/-- Fold the blocking `push` over a list of values (`none` when some push
would spin forever in the sequential model). -/
def pushAll {T : Type} [Inhabited T] :
    SPSCQueue T → List T → Option (SPSCQueue T)
  | q, [] => some q
  | q, v :: vs =>
    match q.push v with
    | none => none
    | some q' => pushAll q' vs

namespace SPSCQueue

variable {T : Type} [Inhabited T]

lemma push_none_iff (q : SPSCQueue T) (v : T) :
    q.push v = none ↔ (q.tryPush v).1 = false := by
  simp only [push, tryPush]
  split_ifs <;> simp

lemma tryPush_pair (q : SPSCQueue T) (v : T) (h : (q.tryPush v).1 = true) :
    q.tryPush v = (true, (q.tryPush v).2) := by
  rw [← h]

lemma pushAll_eq_tryPushAll (q : SPSCQueue T) (vs : List T) :
    pushAll q vs = tryPushAll q vs := by
  induction vs generalizing q with
  | nil => rfl
  | cons v vs ih =>
    show (match q.push v with
      | none => none
      | some q' => pushAll q' vs) =
      if (q.tryPush v).1 then tryPushAll (q.tryPush v).2 vs else none
    cases hb : (q.tryPush v).1 with
    | false =>
      rw [(push_none_iff q v).2 hb]
      simp
    | true =>
      have hp : q.push v = some (q.tryPush v).2 :=
        (push_eq_tryPush q v _).2 (tryPush_pair q v hb)
      rw [hp]
      simp [ih]

/-- Pushing values one by one into a queue whose consumer side is still at
zero: every push takes the fast path and just advances the producer
cursor. -/
lemma tryPushAll_from_zero (j : Nat) (hj : 1 ≤ j) (vs : List T) :
    ∀ q : SPSCQueue T, q.cap = 2 ^ j → q.consumer = 0 → q.pushCursorCache = 0 →
    q.producer + vs.length ≤ 2 ^ j - 1 →
    ∃ qf : SPSCQueue T, tryPushAll q vs = some qf ∧
      qf.cap = 2 ^ j ∧ qf.producer = q.producer + vs.length ∧
      qf.consumer = 0 ∧ qf.pushCursorCache = 0 ∧
      qf.popCursorCache = q.popCursorCache := by
  induction vs with
  | nil =>
    intro q h1 h2 h3 h4
    exact ⟨q, rfl, h1, by simp, h2, h3, rfl⟩
  | cons v vs ih =>
    intro q h1 h2 h3 h4
    have h2j : 2 ≤ 2 ^ j := by
      calc 2 = 2 ^ 1 := rfl
      _ ≤ 2 ^ j := Nat.pow_le_pow_right (by omega) hj
    have hlen : q.producer + 1 + vs.length ≤ 2 ^ j - 1 := by
      simp only [List.length_cons] at h4
      omega
    have hnext : q.nextIndex q.producer = q.producer + 1 := by
      rw [nextIndex_eq q j h1, h1, Nat.mod_eq_of_lt (by omega)]
    have hsucc : q.tryPush v =
        (true, { q with items := q.items.set q.producer v,
                        producer := q.producer + 1 }) := by
      simp only [tryPush, hnext, h3]
      rw [if_neg (by omega)]
    obtain ⟨qf, hrun, hcap, hprod, hcons, hkc, hmc⟩ :=
      ih { q with items := q.items.set q.producer v, producer := q.producer + 1 }
        (by show (q.items.set q.producer v).length = 2 ^ j
            rw [List.length_set]; exact h1)
        h2 h3 hlen
    refine ⟨qf, ?_, hcap, ?_, hcons, hkc, hmc⟩
    · show (if (q.tryPush v).1 then tryPushAll (q.tryPush v).2 vs else none) = some qf
      rw [hsucc]
      exact hrun
    · rw [hprod]
      simp
      omega

/-- On a state with masked cursors, `size()` computes the masked cursor
difference: the wrap-around of the `size_t` subtraction is cancelled by
the final mask because the capacity divides `2^64`. -/
lemma size_eq_occOf (q : SPSCQueue T) (j : Nat) (hj : j ≤ 63)
    (hcap : q.cap = 2 ^ j) (hc : q.consumer < q.cap) :
    q.size = occOf q.cap q.producer q.consumer := by
  have hle : q.cap ≤ 2 ^ 64 := by
    rw [hcap]
    exact Nat.pow_le_pow_right (by omega) (by omega)
  have hdvd : q.cap ∣ 2 ^ 64 := by
    rw [hcap]
    exact pow_dvd_pow 2 (by omega)
  have hpos : 0 < q.cap := by
    rw [hcap]
    exact Nat.pos_pow_of_pos j (by omega)
  show ((q.producer + 2 ^ 64 - q.consumer) % 2 ^ 64) &&& (q.cap - 1) = _
  rw [hcap, Nat.and_pow_two_sub_one_eq_mod, ← hcap,
    Nat.mod_mod_of_dvd _ hdvd,
    show q.producer + 2 ^ 64 - q.consumer
      = (q.producer + q.cap - q.consumer) + (2 ^ 64 - q.cap) from by omega,
    Nat.add_mod]
  have h2 : (2 ^ 64 - q.cap) % q.cap = 0 :=
    Nat.mod_eq_zero_of_dvd (Nat.dvd_sub' hdvd dvd_rfl)
  rw [h2, Nat.add_zero, Nat.mod_mod_of_dvd _ (dvd_refl q.cap)]
  rfl

/-- On any invariant state, `isEmpty()` agrees with `size() == 0`. -/
lemma isEmpty_iff_size_zero_of_inv (q : SPSCQueue T) (hInv : q.Inv) :
    q.isEmpty = true ↔ q.size = 0 := by
  obtain ⟨j, hj1, hj63, hcapj⟩ := hInv.hcap
  rw [size_eq_occOf q j hj63 hcapj hInv.hc]
  show (q.producer == q.consumer) = true ↔ _
  rw [beq_iff_eq]
  exact (occOf_eq_zero_iff q.cap q.producer q.consumer hInv.hp hInv.hc).symm

end SPSCQueue

/-! ### Claims -/

/-- C1: for every queue constructed with a power-of-two capacity and every
terminating sequence of push/tryPush and pop/tryPop operations under the
SPSC discipline, the popped values followed by the values still queued are
exactly the successfully pushed values, in order (FIFO). -/
theorem spsc_fifo_order {T : Type} [Inhabited T] (j : Nat)
    (hj1 : 1 ≤ j) (hj63 : j ≤ 63) (ops : List (Op T)) (ps os : List T)
    (qf : SPSCQueue T)
    (h : runOps ops (SPSCQueue.mkQueue T (2 ^ j)) = some (ps, os, qf)) :
    os ++ qf.contents = ps := by
  have hs := runOps_sound ops _ (SPSCQueue.inv_mkQueue j hj1 hj63) ps os qf h
  rw [SPSCQueue.contents_mkQueue] at hs
  simpa using hs.2

/-- Witness for C1: a concrete run of six operations on a capacity-4
queue. -/
theorem spsc_fifo_order_witness :
    [1, 2, 3] ++ (SPSCQueue.mk [1, 2, 3, 0] 3 3 0 3 : SPSCQueue Nat).contents
      = [1, 2, 3] :=
  spsc_fifo_order 2 (by decide) (by decide)
    [Op.tryPush 1, Op.tryPush 2, Op.tryPop, Op.tryPush 3, Op.tryPop, Op.tryPop]
    [1, 2, 3] [1, 2, 3] (SPSCQueue.mk [1, 2, 3, 0] 3 3 0 3) (by decide)

/-- C2: after `capacity - 1` successful pushes on a fresh queue with no
intervening pops, `tryPush` returns `false` and leaves the entire queue
state (cursors, caches and every slot) unchanged. -/
theorem tryPush_on_full_queue_fails_noop {T : Type} [Inhabited T] (j : Nat)
    (hj : 1 ≤ j) (vs : List T) (hlen : vs.length = 2 ^ j - 1) (w : T) :
    ∃ qf : SPSCQueue T,
      tryPushAll (SPSCQueue.mkQueue T (2 ^ j)) vs = some qf ∧
      qf.tryPush w = (false, qf) := by
  have h2j : 2 ≤ 2 ^ j := by
    calc 2 = 2 ^ 1 := rfl
    _ ≤ 2 ^ j := Nat.pow_le_pow_right (by omega) hj
  obtain ⟨qf, hrun, hcap, hprod, hcons, hkc, hmc⟩ :=
    SPSCQueue.tryPushAll_from_zero j hj vs (SPSCQueue.mkQueue T (2 ^ j))
      (SPSCQueue.cap_mkQueue _) rfl rfl
      (by show 0 + vs.length ≤ 2 ^ j - 1
          omega)
  refine ⟨qf, hrun, ?_⟩
  have hprod' : qf.producer = 2 ^ j - 1 := by
    rw [hprod]
    show 0 + vs.length = _
    omega
  have hnext : qf.nextIndex qf.producer = 0 := by
    rw [SPSCQueue.nextIndex_eq qf j hcap, hprod', hcap,
      Nat.sub_add_cancel (by omega), Nat.mod_self]
  simp only [SPSCQueue.tryPush, hnext]
  rw [if_pos hkc.symm, if_pos hcons.symm,
    SPSCQueue.set_pushCursorCache_self qf qf.consumer (hkc.trans hcons.symm)]

/-- Witness for C2: three pushes fill a capacity-4 queue; the fourth
`tryPush` fails and returns the state unchanged. -/
theorem tryPush_on_full_queue_fails_noop_witness :
    ∃ qf : SPSCQueue Nat,
      tryPushAll (SPSCQueue.mkQueue Nat (2 ^ 2)) [5, 6, 7] = some qf ∧
      qf.tryPush 9 = (false, qf) :=
  tryPush_on_full_queue_fails_noop 2 (by decide) [5, 6, 7] (by decide) 9

/-- C3: on every invariant (i.e. reachable) state with equal cursors,
`tryPop` fails and has no observable effect: the result is `false`, the
caller's variable is returned untouched and the state is unchanged. -/
theorem tryPop_on_empty_queue_noop {T : Type} [Inhabited T]
    (q : SPSCQueue T) (out : T) (hInv : q.Inv)
    (he : q.producer = q.consumer) :
    q.tryPop out = (false, out, q) := by
  obtain ⟨j, hj1, hj63, hcapj⟩ := hInv.hcap
  have hocc : occOf q.cap q.producer q.consumer = 0 :=
    (occOf_eq_zero_iff _ _ _ hInv.hp hInv.hc).2 he
  have hm0 : occOf q.cap q.popCursorCache q.consumer = 0 := by
    have := hInv.hmle
    omega
  have hmc : q.popCursorCache = q.consumer :=
    (occOf_eq_zero_iff _ _ _ hInv.hm hInv.hc).1 hm0
  simp only [SPSCQueue.tryPop]
  rw [if_pos hmc.symm, if_pos he.symm,
    SPSCQueue.set_popCursorCache_self q _ (hmc.trans he.symm)]

/-- Witness for C3: an empty capacity-4 state in the middle of the ring. -/
theorem tryPop_on_empty_queue_noop_witness :
    (SPSCQueue.mk [10, 20, 30, 40] 2 2 2 2 : SPSCQueue Nat).tryPop 99
      = (false, 99, SPSCQueue.mk [10, 20, 30, 40] 2 2 2 2) :=
  tryPop_on_empty_queue_noop (SPSCQueue.mk [10, 20, 30, 40] 2 2 2 2) 99
    ⟨⟨2, by decide, by decide, by decide⟩, by decide, by decide, by decide,
      by decide, by decide, by decide⟩ rfl

/-- C4: in the successful case both `pop` and `tryPop` return the element
stored at the pre-call consumer cursor and advance the consumer cursor to
`nextIndex` of its old value — copy first, publish second. -/
theorem pop_copies_value_before_advancing_cursor {T : Type} [Inhabited T]
    (q : SPSCQueue T) (out v : T) (q' : SPSCQueue T) :
    (q.tryPop out = (true, v, q') →
      v = q.items.getD q.consumer default ∧
      q'.consumer = q.nextIndex q.consumer)
    ∧ (q.pop = some (v, q') →
      v = q.items.getD q.consumer default ∧
      q'.consumer = q.nextIndex q.consumer) := by
  constructor
  · intro h
    simp only [SPSCQueue.tryPop] at h
    split_ifs at h
    · simp at h
    · simp only [Prod.mk.injEq] at h
      obtain ⟨-, h2, h3⟩ := h
      exact ⟨h2.symm, by rw [← h3]⟩
    · simp only [Prod.mk.injEq] at h
      obtain ⟨-, h2, h3⟩ := h
      exact ⟨h2.symm, by rw [← h3]⟩
  · intro h
    simp only [SPSCQueue.pop] at h
    split_ifs at h <;>
      · simp only [Option.some.injEq, Prod.mk.injEq] at h
        obtain ⟨h2, h3⟩ := h
        exact ⟨h2.symm, by rw [← h3]⟩

/-- Witness for C4: popping from a capacity-2 queue holding one element. -/
theorem pop_copies_value_before_advancing_cursor_witness :
    (10 : Nat) = ([10, 20] : List Nat).getD 0 default ∧
    (SPSCQueue.mk [10, 20] 1 1 0 1 : SPSCQueue Nat).consumer
      = (SPSCQueue.mk [10, 20] 1 0 0 0 : SPSCQueue Nat).nextIndex 0 :=
  (pop_copies_value_before_advancing_cursor
    (SPSCQueue.mk [10, 20] 1 0 0 0) 7 10 (SPSCQueue.mk [10, 20] 1 1 0 1)).1
    (by decide)

/-- C5 exhibit: the constructor assertion `(slots & (slots-1)) == 0`
rejects 100 but accepts the degenerate capacities 0 and 1 (the claimed
fatal fault for capacities below 2 does not happen). -/
theorem construct_assert_accepts_zero_and_one :
    SPSCQueue.construct Nat 100 = none ∧
    (SPSCQueue.construct Nat 0).isSome = true ∧
    (SPSCQueue.construct Nat 1).isSome = true ∧
    (SPSCQueue.construct Nat 2).isSome = true := by decide

/-- Counterexample for C6: element size 3 is positive, yet the slot count
`262144 / 3 = 87381` is not a power of two, so the assertion inside
`recommendedSlots` fails instead of returning a valid slot count. -/
theorem recommendedSlotsAssert_fails_at_size_three :
    0 < 3 ∧ recommendedSlotsAssert 3 = false := by decide

/-- C6 (amended): for every power-of-two element size up to `2^17`,
`recommendedSlots`'s assertion holds and it returns a power of two `≥ 2`
whose product with the element size is exactly the 4096-cache-line
target. -/
theorem recommendedSlots_power_of_two_sizes (i : Nat) (hi : i ≤ 17) :
    recommendedSlotsAssert (2 ^ i) = true ∧
    recommendedSlots (2 ^ i) = 2 ^ (18 - i) ∧
    recommendedSlots (2 ^ i) * 2 ^ i = 4096 * CACHE_LINE := by
  interval_cases i <;> decide

/-- Witness for C6 (amended): element size 256. -/
theorem recommendedSlots_power_of_two_sizes_witness :
    recommendedSlotsAssert (2 ^ 8) = true ∧
    recommendedSlots (2 ^ 8) = 2 ^ (18 - 8) ∧
    recommendedSlots (2 ^ 8) * 2 ^ 8 = 4096 * CACHE_LINE :=
  recommendedSlots_power_of_two_sizes 8 (by decide)

/-- C7: `size()` immediately after `N` blocking pushes on a fresh queue
with no intervening pops returns exactly `N`, for `N < capacity`. -/
theorem size_counts_pushes {T : Type} [Inhabited T] (j : Nat)
    (hj1 : 1 ≤ j) (hj63 : j ≤ 63) (vs : List T) (hlen : vs.length < 2 ^ j) :
    ∃ qf : SPSCQueue T,
      pushAll (SPSCQueue.mkQueue T (2 ^ j)) vs = some qf ∧
      qf.size = vs.length := by
  have hpos : 0 < 2 ^ j := Nat.pos_pow_of_pos j (by omega)
  obtain ⟨qf, hrun, hcap, hprod, hcons, hkc, hmc⟩ :=
    SPSCQueue.tryPushAll_from_zero j hj1 vs (SPSCQueue.mkQueue T (2 ^ j))
      (SPSCQueue.cap_mkQueue _) rfl rfl
      (by show 0 + vs.length ≤ 2 ^ j - 1
          omega)
  have hprod' : qf.producer = vs.length := by
    rw [hprod]
    show 0 + vs.length = _
    omega
  refine ⟨qf, ?_, ?_⟩
  · rw [SPSCQueue.pushAll_eq_tryPushAll]
    exact hrun
  · rw [SPSCQueue.size_eq_occOf qf j hj63 hcap (by rw [hcons, hcap]; exact hpos),
      occOf_eq qf.cap qf.producer qf.consumer
        (by rw [hprod', hcap]; exact hlen) (by rw [hcons, hcap]; exact hpos),
      hprod', hcons]
    simp

/-- Witness for C7: two pushes into a capacity-4 queue give size 2. -/
theorem size_counts_pushes_witness :
    ∃ qf : SPSCQueue Nat,
      pushAll (SPSCQueue.mkQueue Nat (2 ^ 2)) [5, 6] = some qf ∧
      qf.size = 2 :=
  size_counts_pushes 2 (by decide) (by decide) [5, 6] (by decide)

/-- C8: in every state reachable from a fresh power-of-two queue,
`isEmpty()` returns `true` exactly when `size()` returns 0. -/
theorem isEmpty_iff_size_eq_zero {T : Type} [Inhabited T] (j : Nat)
    (hj1 : 1 ≤ j) (hj63 : j ≤ 63) (ops : List (Op T)) (ps os : List T)
    (qf : SPSCQueue T)
    (h : runOps ops (SPSCQueue.mkQueue T (2 ^ j)) = some (ps, os, qf)) :
    qf.isEmpty = true ↔ qf.size = 0 :=
  SPSCQueue.isEmpty_iff_size_zero_of_inv qf
    (runOps_sound ops _ (SPSCQueue.inv_mkQueue j hj1 hj63) ps os qf h).1

/-- Witness for C8: the state after one push on a capacity-4 queue. -/
theorem isEmpty_iff_size_eq_zero_witness :
    (SPSCQueue.mk [1, 0, 0, 0] 1 0 0 0 : SPSCQueue Nat).isEmpty = true ↔
    (SPSCQueue.mk [1, 0, 0, 0] 1 0 0 0 : SPSCQueue Nat).size = 0 :=
  isEmpty_iff_size_eq_zero 2 (by decide) (by decide) [Op.tryPush 1] [1] []
    (SPSCQueue.mk [1, 0, 0, 0] 1 0 0 0) (by decide)

/-- C9: with in-range cursors, every operation accesses storage only at an
in-range index (the producer cursor for the write, the consumer cursor for
the read) and leaves both cursors in `[0, capacity)`. -/
theorem operations_preserve_cursor_bounds {T : Type} [Inhabited T]
    (q : SPSCQueue T) (v out : T) (j : Nat) (hj : 1 ≤ j)
    (hcap : q.cap = 2 ^ j) (hp : q.producer < q.cap) (hc : q.consumer < q.cap) :
    (q.producer < q.items.length ∧ q.consumer < q.items.length)
    ∧ ((q.tryPush v).2.producer < (q.tryPush v).2.cap
        ∧ (q.tryPush v).2.consumer < (q.tryPush v).2.cap)
    ∧ ((q.tryPop out).2.2.producer < (q.tryPop out).2.2.cap
        ∧ (q.tryPop out).2.2.consumer < (q.tryPop out).2.2.cap)
    ∧ (∀ q' : SPSCQueue T, q.push v = some q' →
        q'.producer < q'.cap ∧ q'.consumer < q'.cap)
    ∧ (∀ r : T × SPSCQueue T, q.pop = some r →
        r.2.producer < r.2.cap ∧ r.2.consumer < r.2.cap) := by
  have hpos : 0 < q.cap := by
    rw [hcap]
    exact Nat.pos_pow_of_pos j (by omega)
  have hnlt : ∀ i : Nat, q.nextIndex i < q.cap := fun i => by
    rw [SPSCQueue.nextIndex_eq q j hcap]
    exact Nat.mod_lt _ hpos
  refine ⟨⟨hp, hc⟩, ?_, ?_, ?_, ?_⟩
  · simp only [SPSCQueue.tryPush]
    split_ifs
    · exact ⟨hp, hc⟩
    · constructor
      · show q.nextIndex q.producer < (q.items.set q.producer v).length
        rw [List.length_set]
        exact hnlt _
      · show q.consumer < (q.items.set q.producer v).length
        rw [List.length_set]
        exact hc
    · constructor
      · show q.nextIndex q.producer < (q.items.set q.producer v).length
        rw [List.length_set]
        exact hnlt _
      · show q.consumer < (q.items.set q.producer v).length
        rw [List.length_set]
        exact hc
  · simp only [SPSCQueue.tryPop]
    split_ifs
    · exact ⟨hp, hc⟩
    · exact ⟨hp, hnlt _⟩
    · exact ⟨hp, hnlt _⟩
  · intro q' hq'
    simp only [SPSCQueue.push] at hq'
    split_ifs at hq' <;>
      · obtain rfl := Option.some.inj hq'
        constructor
        · show q.nextIndex q.producer < (q.items.set q.producer v).length
          rw [List.length_set]
          exact hnlt _
        · show q.consumer < (q.items.set q.producer v).length
          rw [List.length_set]
          exact hc
  · intro r hr
    simp only [SPSCQueue.pop] at hr
    split_ifs at hr <;>
      · obtain rfl := Option.some.inj hr
        exact ⟨hp, hnlt _⟩

/-- Witness for C9: the `tryPush` conjunct at a concrete capacity-4
queue. -/
theorem operations_preserve_cursor_bounds_witness :
    ((SPSCQueue.mkQueue Nat 4).tryPush 5).2.producer
        < ((SPSCQueue.mkQueue Nat 4).tryPush 5).2.cap ∧
    ((SPSCQueue.mkQueue Nat 4).tryPush 5).2.consumer
        < ((SPSCQueue.mkQueue Nat 4).tryPush 5).2.cap :=
  (operations_preserve_cursor_bounds (SPSCQueue.mkQueue Nat 4) 5 7 2
    (by decide) (by decide) (by decide) (by decide)).2.1

/-- C10: a failed `tryPop` writes nothing into the caller-supplied output
reference — the returned `out` is exactly the value passed in. -/
theorem tryPop_failure_leaves_out_unchanged {T : Type} [Inhabited T]
    (q : SPSCQueue T) (out : T) (h : (q.tryPop out).1 = false) :
    (q.tryPop out).2.1 = out := by
  simp only [SPSCQueue.tryPop] at h ⊢
  split_ifs at h ⊢
  rfl

/-- Witness for C10: a failed pop on a fresh capacity-8 queue returns the
caller's value 42 untouched. -/
theorem tryPop_failure_leaves_out_unchanged_witness :
    ((SPSCQueue.mkQueue Nat 8).tryPop 42).2.1 = 42 :=
  tryPop_failure_leaves_out_unchanged (SPSCQueue.mkQueue Nat 8) 42 (by decide)

